import Mathlib

/-
Verification of the lox bytecode compiler and VM (Rust sources under src/)
against its natural-language specification.

Modelling conventions, used throughout:
  - Rust `usize` arithmetic is modelled as `Nat` with explicit two's-complement
    wrapping modulo 2^64 (`wadd`, `wsub`), i.e. the semantics of a release
    build, where integer overflow wraps.  Where a theorem needs the absence of
    wraparound it carries an explicit hypothesis.
  - `u8` values are `Nat` with explicit `% 256` where the source truncates
    (`as u8`).
  - Fallible Rust functions returning `anyhow::Result<T>` are modelled as
    `Except String T`, with the source's message strings (format arguments
    dropped).
  - The numeric payload of `Value::Number(f64)` is modelled as `Int`; none of
    the properties below depends on floating-point-specific behaviour.
  - `chunk.rs` and `value.rs` in the repository are an earlier revision that
    lacks the methods `instruction.rs` and `vm.rs` call (`Chunk::write`,
    `Chunk::set`, `Chunk::read`, `Chunk::len`, `Chunk::add_constant : .. -> u8`,
    `Chunk::get_constant`, and `Value`'s comparison instances).  Those few
    members are modelled from the specification (sections 2, 3 and 9), as
    flagged by their doc comments; everything else is translated directly from
    the Rust source.
-/

namespace Lox

/-- The number of values of `usize` (64-bit). -/
def USIZE : Nat := 2 ^ 64

/-- Largest `usize` value, `usize::MAX`. -/
def usizeMax : Nat := USIZE - 1

/-- Wrapping `usize` addition (release-build semantics of Rust `+`). -/
def wadd (a b : Nat) : Nat := (a + b) % USIZE

/-- Wrapping `usize` subtraction (release-build semantics of Rust `-`),
for arguments below `USIZE`. -/
def wsub (a b : Nat) : Nat := (a + USIZE - b % USIZE) % USIZE

/-- `Value` (value.rs): tagged sum of String, Number, Nil, Boolean, in the
source's variant order.  The `f64` payload is modelled as `Int`. -/
inductive Value where
  | str (s : String)
  | num (n : Int)
  | nil
  | boolean (b : Bool)
deriving DecidableEq

/-- The variant's declaration index, which Rust's derived comparison
instances compare first. -/
def Value.tagIdx : Value → Nat
  | .str _ => 0
  | .num _ => 1
  | .nil => 2
  | .boolean _ => 3

/-- Modelled from the spec: section 9 records that the source "uses
`PartialOrd` derivation" on `Value` (the repository's value.rs is the stale
earlier revision without it).  Rust's derived ordering on an enum compares
the variant order first and payloads only within a variant, so cross-variant
comparisons yield a definite `Ordering`, never a type error. -/
def Value.pcompare (a b : Value) : Option Ordering :=
  match a, b with
  | .str x, .str y => some (compare x y)
  | .num x, .num y => some (compare x y)
  | .nil, .nil => some Ordering.eq
  | .boolean x, .boolean y => some (compare x y)
  | _, _ => some (compare a.tagIdx b.tagIdx)

/-- Rust `a > b` through the derived `PartialOrd` (`partial_cmp == Some(Greater)`). -/
def Value.gtv (a b : Value) : Bool := Value.pcompare a b == some Ordering.gt

/-- Rust `a < b` through the derived `PartialOrd` (`partial_cmp == Some(Less)`). -/
def Value.ltv (a b : Value) : Bool := Value.pcompare a b == some Ordering.lt

/-- Modelled from the spec: the `Chunk` of section 3 — parallel `code` and
line-number sequences plus the constant pool (the repository's chunk.rs is
the stale earlier revision without the members instruction.rs calls). -/
structure Chunk where
  code : List Nat
  lineNumbers : List Int
  values : List Value
deriving DecidableEq

/-- Modelled from the spec: a Chunk is created empty. -/
def Chunk.new : Chunk := ⟨[], [], []⟩

/-- Modelled from the spec: the current code length (`Chunk::len`). -/
def Chunk.len (c : Chunk) : Nat := c.code.length

/-- Modelled from the spec: append one code byte and its source line in
lock-step (`Chunk::write`); returns the offset the byte was written at,
as instruction.rs uses it. -/
def Chunk.write (c : Chunk) (b : Nat) (line : Int) : Chunk × Nat :=
  (⟨c.code ++ [b], c.lineNumbers ++ [line], c.values⟩, c.code.length)

/-- Modelled from the spec: random write of one existing code byte
(`Chunk::set`, the back-patching primitive of section 2). -/
def Chunk.set (c : Chunk) (loc : Nat) (b : Nat) : Except String Chunk :=
  if loc < c.code.length then Except.ok ⟨c.code.set loc b, c.lineNumbers, c.values⟩
  else Except.error "Cannot set code byte. Offset is out of range"

/-- Modelled from the spec with the index type pinned by the source: append a
constant to the pool and return its index as `u8` (`Chunk::add_constant`;
instruction.rs line 148 fixes the return type to `u8`, and the earlier
revision of chunk.rs computes `(self.values.len() - 1) as u8`, i.e. the new
value's index truncated modulo 256). -/
def Chunk.addConstant (c : Chunk) (v : Value) : Chunk × Nat :=
  (⟨c.code, c.lineNumbers, c.values ++ [v]⟩, c.values.length % 256)

/-- Modelled from the spec: `get_const(i)` returns the Value at constant
index i, failing out of range (`Chunk::get_constant`). -/
def Chunk.getConstant (c : Chunk) (index : Nat) : Except String Value :=
  match c.values.get? index with
  | some v => Except.ok v
  | none => Except.error "No constant at index"

/-- `OpCode` (instruction.rs lines 221-248), in declaration order. -/
inductive OpCode where
  | constant
  | opReturn
  | negate
  | add
  | subtract
  | multiply
  | divide
  | opNil
  | opTrue
  | opFalse
  | opNot
  | equal
  | greater
  | less
  | print
  | pop
  | defineGlobal
  | getGlobal
  | setGlobal
  | getLocal
  | setLocal
  | jump
  | jumpIfFalse
  | loop
deriving DecidableEq

/-- The opcode's byte (its `repr(u8)` discriminant, declaration order). -/
def OpCode.toByte : OpCode → Nat
  | .constant => 0
  | .opReturn => 1
  | .negate => 2
  | .add => 3
  | .subtract => 4
  | .multiply => 5
  | .divide => 6
  | .opNil => 7
  | .opTrue => 8
  | .opFalse => 9
  | .opNot => 10
  | .equal => 11
  | .greater => 12
  | .less => 13
  | .print => 14
  | .pop => 15
  | .defineGlobal => 16
  | .getGlobal => 17
  | .setGlobal => 18
  | .getLocal => 19
  | .setLocal => 20
  | .jump => 21
  | .jumpIfFalse => 22
  | .loop => 23

/-- `InstructionWriter::write_const` (instruction.rs lines 67-76): add the
constant, bail when the returned `u8` index exceeds `u8::MAX`, then append
the `Constant` opcode and the one-byte index; returns the opcode's offset. -/
def writeConst (c : Chunk) (v : Value) (line : Int) : Except String (Chunk × Nat) :=
  let afterAdd := Chunk.addConstant c v
  let constIndex := afterAdd.2
  if constIndex > 255 then Except.error "Too many costants in chunk"
  else
    let w1 := Chunk.write afterAdd.1 OpCode.constant.toByte line
    let w2 := Chunk.write w1.1 constIndex line
    Except.ok (w2.1, w1.2)

/-- `InstructionWriter::write_op_code` (instruction.rs lines 91-93). -/
def writeOpCode (c : Chunk) (op : OpCode) (line : Int) : Chunk × Nat :=
  Chunk.write c op.toByte line

/-- `InstructionWriter::write_op_code_with_operand` (instruction.rs lines 78-82). -/
def writeOpCodeWithOperand (c : Chunk) (op : OpCode) (operand : Nat) (line : Int) :
    Chunk × Nat :=
  let w1 := Chunk.write c op.toByte line
  let w2 := Chunk.write w1.1 operand line
  (w2.1, w1.2)

/-- `InstructionWriter::write_op_code_with_operands` (instruction.rs lines 84-89). -/
def writeOpCodeWithOperands (c : Chunk) (op : OpCode) (operand1 operand2 : Nat)
    (line : Int) : Chunk × Nat :=
  let w1 := Chunk.write c op.toByte line
  let w2 := Chunk.write w1.1 operand1 line
  let w3 := Chunk.write w2.1 operand2 line
  (w3.1, w1.2)

/-- `InstructionWriter::write_jump_if_false` (instruction.rs lines 95-97):
placeholder operands 0xFF 0xFF. -/
def writeJumpIfFalse (c : Chunk) (line : Int) : Chunk × Nat :=
  writeOpCodeWithOperands c OpCode.jumpIfFalse 255 255 line

/-- `InstructionWriter::write_jump` (instruction.rs lines 99-101). -/
def writeJump (c : Chunk) (line : Int) : Chunk × Nat :=
  writeOpCodeWithOperands c OpCode.jump 255 255 line

/-- `InstructionWriter::write_loop` (instruction.rs lines 103-115):
`offset = chunk.len() - (loop_start_loc - 3)` in wrapping usize arithmetic,
a guard comparing a usize against `usize::MAX`, then the two big-endian
offset bytes after the `Loop` opcode. -/
def writeLoop (c : Chunk) (loopStartLoc : Nat) (line : Int) :
    Except String (Chunk × Nat) :=
  let offset := wsub c.len (wsub loopStartLoc 3)
  if offset > usizeMax then Except.error "Loop body too big"
  else Except.ok (writeOpCodeWithOperands c OpCode.loop
    ((offset >>> 8) &&& 255) (offset &&& 255) line)

/-- `InstructionWriter::set_byte` (instruction.rs lines 117-119). -/
def setByte (c : Chunk) (loc : Nat) (codeByte : Nat) : Except String Chunk :=
  Chunk.set c loc codeByte

/-- `InstructionWriter::patch_operands` (instruction.rs lines 121-131). -/
def patchOperands (c : Chunk) (opCodeLoc : Nat) (operand1 operand2 : Option Nat) :
    Except String Chunk :=
  let step1 : Except String Chunk :=
    match operand1 with
    | some op1 => setByte c (opCodeLoc + 1) op1
    | none => Except.ok c
  match step1 with
  | Except.error e => Except.error e
  | Except.ok c1 =>
    match operand2 with
    | some op2 => setByte c1 (opCodeLoc + 2) op2
    | none => Except.ok c1

/-- `InstructionWriter::patch_jump_to_chunk_end` (instruction.rs lines
133-146): distance `chunk.len() - (jmp_op_code_loc + 3)` in wrapping usize
arithmetic, a guard comparing a usize against `usize::MAX`, then the two
big-endian distance bytes patched in at offsets loc+1 and loc+2. -/
def patchJumpToChunkEnd (c : Chunk) (jmpOpCodeLoc : Nat) : Except String Chunk :=
  let relOffset := wsub c.len (wadd jmpOpCodeLoc 3)
  if relOffset > usizeMax then Except.error "Jump too long"
  else patchOperands c jmpOpCodeLoc (some ((relOffset >>> 8) &&& 255))
    (some (relOffset &&& 255))

/-- `InstructionReader` (instruction.rs lines 153-156): a chunk and an
instruction pointer. -/
structure InstructionReader where
  chunk : Chunk
  ip : Nat
deriving DecidableEq

/-- `InstructionReader::set_ip` (instruction.rs lines 202-210). -/
def InstructionReader.setIp (r : InstructionReader) (newIp : Nat) :
    Except String InstructionReader :=
  if newIp > r.chunk.len then Except.error "Attempt to set ip beyond chunk"
  else Except.ok { r with ip := newIp }

/-- `InstructionReader::inc_ip` (instruction.rs lines 212-214); the addition
`self.ip + inc` is wrapping usize arithmetic. -/
def InstructionReader.incIp (r : InstructionReader) (inc : Nat) :
    Except String InstructionReader :=
  r.setIp (wadd r.ip inc)

/-- `InstructionReader::dec_ip` (instruction.rs lines 216-218); the
subtraction `self.ip - dec` is wrapping usize arithmetic. -/
def InstructionReader.decIp (r : InstructionReader) (dec : Nat) :
    Except String InstructionReader :=
  r.setIp (wsub r.ip dec)

/-- `Vm::read_operands_as_usize` (vm.rs lines 184-189): the two jump operand
bytes recombined big-endian, failing when one is missing. -/
def readOperandsAsUsize (operand1 operand2 : Option Nat) : Except String Nat :=
  match operand1, operand2 with
  | some op1, some op2 => Except.ok (op1 <<< 8 ||| op2)
  | _, _ => Except.error "Operand missing on instruction"

/-- Decidable equality for `Except`, needed to evaluate the concrete
witnesses below. -/
def exceptDecEq {ε α : Type} [DecidableEq ε] [DecidableEq α] :
    DecidableEq (Except ε α) := fun a b =>
  match a, b with
  | Except.ok x, Except.ok y =>
    if h : x = y then isTrue (by rw [h])
    else isFalse (fun hh => by injection hh; contradiction)
  | Except.ok _, Except.error _ => isFalse (fun hh => Except.noConfusion hh)
  | Except.error _, Except.ok _ => isFalse (fun hh => Except.noConfusion hh)
  | Except.error e, Except.error f =>
    if h : e = f then isTrue (by rw [h])
    else isFalse (fun hh => by injection hh; contradiction)

instance {ε α : Type} [DecidableEq ε] [DecidableEq α] : DecidableEq (Except ε α) :=
  exceptDecEq

/-! VM state: the evaluation stack (stack.rs, a Vec with its top at the end)
and the globals table (vm.rs, a HashMap observed only through insert and
lookup, modelled as an association list with replace-on-insert). -/

/-- `Stack::push` (stack.rs lines 11-13). -/
def Stack.push {α : Type} (s : List α) (item : α) : List α := s ++ [item]

/-- `Stack::pop` (stack.rs lines 15-21); returns the popped value with the
remaining stack. -/
def Stack.pop {α : Type} (s : List α) : Except String (α × List α) :=
  if s.isEmpty then Except.error "Stack underflow"
  else
    match s.getLast? with
    | some v => Except.ok (v, s.dropLast)
    | none => Except.error "Stack underflow"

/-- `Stack::peek` (stack.rs lines 23-32): `pos` positions below the top. -/
def Stack.peek {α : Type} (s : List α) (pos : Nat) : Except String α :=
  if pos + 1 > s.length then Except.error "Stack underflow"
  else
    match s.get? (s.length - (pos + 1)) with
    | some v => Except.ok v
    | none => Except.error "Stack underflow"

/-- `Stack::peek_front` (stack.rs lines 35-41): absolute slot from the bottom. -/
def Stack.peekFront {α : Type} (s : List α) (pos : Nat) : Except String α :=
  if pos ≥ s.length then Except.error "Stack overflow"
  else
    match s.get? pos with
    | some v => Except.ok v
    | none => Except.error "Stack overflow"

/-- `Stack::set_front` (stack.rs lines 43-51). -/
def Stack.setFront {α : Type} (s : List α) (pos : Nat) (value : α) :
    Except String (List α) :=
  if pos ≥ s.length then Except.error "Stack overflow"
  else Except.ok (s.set pos value)

/-- The VM's globals table (vm.rs line 16), observed through insert,
lookup and contains_key only. -/
abbrev Globals := List (String × Value)

def Globals.lookup : Globals → String → Option Value
  | [], _ => none
  | (k, v) :: rest, n => if k = n then some v else Globals.lookup rest n

/-- `HashMap::insert`: replace the value under an existing key, else add
the binding. -/
def Globals.insert : Globals → String → Value → Globals
  | [], n, v => [(n, v)]
  | (k, w) :: rest, n, v =>
    if k = n then (n, v) :: rest else (k, w) :: Globals.insert rest n v

def Globals.containsKey (g : Globals) (n : String) : Bool :=
  (Globals.lookup g n).isSome

/-- `Vm::get_operand1` (vm.rs lines 174-177). -/
def getOperand1 (operand1 : Option Nat) : Except String Nat :=
  match operand1 with
  | some o => Except.ok o
  | none => Except.error "Operand 1 missing on instruction"

/-- `Vm::get_global_name` (vm.rs lines 162-172): operand 1 indexes the
constant pool and must name a String constant. -/
def getGlobalName (c : Chunk) (operand1 : Option Nat) : Except String String :=
  match getOperand1 operand1 with
  | Except.error e => Except.error e
  | Except.ok idx =>
    match Chunk.getConstant c idx with
    | Except.error _ => Except.error "No global at index"
    | Except.ok (Value.str name) => Except.ok name
    | Except.ok _ => Except.error "Operand 1 missing on instruction"

/-- `Vm::binary_op` (vm.rs lines 191-200): pop b, pop a, apply, push. -/
def Vm.binaryOp (st : List Value) (op : Value → Value → Except String Value) :
    Except String (List Value) :=
  match Stack.pop st with
  | Except.error e => Except.error e
  | Except.ok (b, st1) =>
    match Stack.pop st1 with
    | Except.error e => Except.error e
    | Except.ok (a, st2) =>
      match op a b with
      | Except.error e => Except.error e
      | Except.ok res => Except.ok (Stack.push st2 res)

/-- The `OpCode::Greater` dispatch arm (vm.rs line 92): the closure always
returns Ok, so no type check happens. -/
def execGreater (st : List Value) : Except String (List Value) :=
  Vm.binaryOp st (fun a b => Except.ok (Value.boolean (Value.gtv a b)))

/-- The `OpCode::Less` dispatch arm (vm.rs line 93). -/
def execLess (st : List Value) : Except String (List Value) :=
  Vm.binaryOp st (fun a b => Except.ok (Value.boolean (Value.ltv a b)))

/-- The `OpCode::DefineGlobal` dispatch arm (vm.rs lines 96-102): resolve
the name, peek the value, insert it, then pop. -/
def execDefineGlobal (c : Chunk) (g : Globals) (st : List Value)
    (operand1 : Option Nat) : Except String (List Value × Globals) :=
  match getGlobalName c operand1 with
  | Except.error e => Except.error e
  | Except.ok globalName =>
    match Stack.peek st 0 with
    | Except.error e => Except.error e
    | Except.ok val =>
      let g1 := Globals.insert g globalName val
      match Stack.pop st with
      | Except.error e => Except.error e
      | Except.ok (_, st1) => Except.ok (st1, g1)

/-- The `OpCode::SetGlobal` dispatch arm (vm.rs lines 107-116): the source
bails when the key is absent, else peeks the new value (no pop) and inserts. -/
def execSetGlobal (c : Chunk) (g : Globals) (st : List Value)
    (operand1 : Option Nat) : Except String (List Value × Globals) :=
  match getGlobalName c operand1 with
  | Except.error e => Except.error e
  | Except.ok globalName =>
    if Globals.containsKey g globalName then
      match Stack.peek st 0 with
      | Except.error e => Except.error e
      | Except.ok newValue => Except.ok (st, Globals.insert g globalName newValue)
    else Except.error "Undefined variable"

/-- The `OpCode::SetLocal` dispatch arm (vm.rs lines 122-126): peek the top
(no pop) and write it to the absolute slot. -/
def execSetLocal (st : List Value) (operand1 : Option Nat) :
    Except String (List Value) :=
  match getOperand1 operand1 with
  | Except.error e => Except.error e
  | Except.ok slot =>
    match Stack.peek st 0 with
    | Except.error e => Except.error e
    | Except.ok val => Stack.setFront st slot val

/-! Compiler state: locals, scope depth and the precedence lattice
(compiler.rs). -/

/-- `Local` (compiler.rs lines 767-772). -/
structure Local where
  name : String
  depth : Int
  initialized : Bool
deriving DecidableEq

/-- The enumerate loop of `Compiler::resolve_local` (compiler.rs lines
343-351), carrying the running index: the source iterates
`self.locals.iter().enumerate()` from index 0 (the OLDEST local) upward and
returns at the first name match, bailing when that local is uninitialized. -/
def resolveLocalAux : List Local → String → Nat → Except String (Option Nat)
  | [], _, _ => Except.ok none
  | l :: rest, name, i =>
    if l.name = name then
      if l.initialized = false then
        Except.error ("Use of uninitialized local variable " ++ name)
      else Except.ok (some i)
    else resolveLocalAux rest name (i + 1)

/-- `Compiler::resolve_local` (compiler.rs lines 342-354). -/
def resolveLocal (locals : List Local) (name : String) : Except String (Option Nat) :=
  resolveLocalAux locals name 0

/-- The popping loop of `Compiler::end_scope` (compiler.rs lines 282-300),
acting top-down (`revLocals` is the locals list reversed): the loop breaks
when the inspected local's depth is BELOW the new scope depth, and
otherwise emits one Pop opcode and pops the local.  Returns the locals
popped, in pop order, the (still reversed) remainder, and the chunk after
the emitted Pops. -/
def popDeadLocals : List Local → Int → Chunk → Int → List Local × List Local × Chunk
  | [], _, c, _ => ([], [], c)
  | l :: rest, newDepth, c, line =>
    if l.depth < newDepth then ([], l :: rest, c)
    else
      let c1 := (Chunk.write c OpCode.pop.toByte line).1
      let r := popDeadLocals rest newDepth c1 line
      (l :: r.1, r.2.1, r.2.2)

/-- `Compiler::end_scope` (compiler.rs lines 279-303): decrement the scope
depth FIRST, then run the popping loop (guarded by a non-emptiness check).
Returns (new depth, popped locals in LIFO order, remaining locals, chunk
with one Pop emitted per popped local); `line` is the previous token's
line number the source fetches for the Pops. -/
def endScope (depth : Int) (locals : List Local) (c : Chunk) (line : Int) :
    Int × List Local × List Local × Chunk :=
  let newDepth := depth - 1
  if locals.length > 0 then
    let r := popDeadLocals locals.reverse newDepth c line
    (newDepth, r.1, r.2.1.reverse, r.2.2)
  else (newDepth, [], locals, c)

/-- `Precedence` (compiler.rs lines 727-741), in ascending order. -/
inductive Precedence where
  | nonePrec
  | assignment
  | orPrec
  | andPrec
  | equality
  | comparison
  | term
  | factor
  | unary
  | call
  | primary
deriving DecidableEq

/-- The enum's `repr(i32)` discriminant. -/
def Precedence.toI32 : Precedence → Int
  | .nonePrec => 0
  | .assignment => 1
  | .orPrec => 2
  | .andPrec => 3
  | .equality => 4
  | .comparison => 5
  | .term => 6
  | .factor => 7
  | .unary => 8
  | .call => 9
  | .primary => 10

/-- `Precedence::is_greater_than` (compiler.rs lines 749-751). -/
def Precedence.isGreaterThan (a b : Precedence) : Bool :=
  decide (a.toI32 > b.toI32)

/-- `Precedence::is_greater_than_or_eq` (compiler.rs lines 753-755). -/
def Precedence.isGreaterThanOrEq (a b : Precedence) : Bool :=
  a == b || a.isGreaterThan b

/-- `Precedence::higher` (compiler.rs lines 744-747): discriminant plus one.
The source's `From<i32>` would panic one step above `primary`; that case is
unreachable from the rule table, whose infix precedences stop at `comparison`. -/
def Precedence.higher : Precedence → Precedence
  | .nonePrec => .assignment
  | .assignment => .orPrec
  | .orPrec => .andPrec
  | .andPrec => .equality
  | .equality => .comparison
  | .comparison => .term
  | .term => .factor
  | .factor => .unary
  | .unary => .call
  | .call => .primary
  | .primary => .primary

/-- The can_assign passed to the prefix and infix parse functions
(compiler.rs lines 510 and 522): `Assignment.is_greater_than_or_eq(p)`,
i.e. p ≤ Assignment. -/
def canAssignArg (precedence : Precedence) : Bool :=
  Precedence.assignment.isGreaterThanOrEq precedence

/-- The can_assign recomputed for parse_precedence's final check
(compiler.rs line 438): `Assignment.is_greater_than(p)`, STRICT. -/
def canAssignFinal (precedence : Precedence) : Bool :=
  Precedence.assignment.isGreaterThan precedence

/-- The final step of `parse_precedence` (compiler.rs lines 438-443): after
the infix loop, the parser bails with "Invalid assignment target" iff this
predicate holds — its own can_assign AND the current token is `=` (the
token match is only attempted when that can_assign is true, mirroring the
source's short-circuit, so an `=` is consumed there only in that case). -/
def finalAssignCheck (precedence : Precedence) (currentIsEqual : Bool) : Bool :=
  canAssignFinal precedence && currentIsEqual

/-! The Pratt parser fragment needed for the rule-table properties:
tokens, the parse-rule table, and a fueled interpreter for the expression
compiler (compiler.rs). -/

/-- `TokenType` (scanner contract, spec 6.2): modelled payload-free as the
rule table of compiler.rs keys it (the lexeme lives in the Token). -/
inductive TokenType where
  | leftParen
  | rightParen
  | leftBrace
  | rightBrace
  | comma
  | dot
  | minus
  | plus
  | semicolon
  | slash
  | star
  | bang
  | bangEqual
  | equal
  | equalEqual
  | greater
  | greaterEqual
  | less
  | lessEqual
  | identifier
  | string
  | number
  | andTok
  | classTok
  | elseTok
  | falseTok
  | funTok
  | forTok
  | ifTok
  | nilTok
  | orTok
  | printTok
  | returnTok
  | superTok
  | thisTok
  | trueTok
  | varTok
  | whileTok
  | eof
deriving DecidableEq

/-- `Token` (token.rs lines 4-8), the lexeme text inlined. -/
structure Token where
  tokenType : TokenType
  lexeme : String
  line : Nat
deriving DecidableEq

/-- The prefix parse functions of the rule table, as tags
(compiler.rs set_up_parse_rules). -/
inductive PrefixFnTag where
  | groupingFn
  | unaryFn
  | variableFn
  | numberFn
  | stringFn
  | literalFn
deriving DecidableEq

/-- The infix parse functions of the rule table, as tags. -/
inductive InfixFnTag where
  | binaryFn
  | andFn
  | orFn
deriving DecidableEq

/-- `ParseRule` (compiler.rs lines 698-702), function pointers as tags. -/
structure ParseRule where
  prefixFn : Option PrefixFnTag
  infixFn : Option InfixFnTag
  precedence : Precedence
deriving DecidableEq

/-- `Compiler::set_up_parse_rules` (compiler.rs lines 622-671), entry for
entry in the source's order; `add_null` entries are ⟨none, none, None⟩. -/
def parseRules : TokenType → ParseRule
  | .leftParen => ⟨some .groupingFn, none, .nonePrec⟩
  | .rightParen => ⟨none, none, .nonePrec⟩
  | .leftBrace => ⟨none, none, .nonePrec⟩
  | .rightBrace => ⟨none, none, .nonePrec⟩
  | .comma => ⟨none, none, .nonePrec⟩
  | .dot => ⟨none, none, .nonePrec⟩
  | .minus => ⟨some .unaryFn, some .binaryFn, .term⟩
  | .plus => ⟨none, some .binaryFn, .term⟩
  | .semicolon => ⟨none, none, .nonePrec⟩
  | .slash => ⟨none, some .binaryFn, .factor⟩
  | .star => ⟨none, some .binaryFn, .factor⟩
  | .bang => ⟨some .unaryFn, none, .factor⟩
  | .bangEqual => ⟨none, some .binaryFn, .equality⟩
  | .equal => ⟨none, none, .nonePrec⟩
  | .equalEqual => ⟨none, some .binaryFn, .equality⟩
  | .greater => ⟨none, some .binaryFn, .comparison⟩
  | .greaterEqual => ⟨none, some .binaryFn, .comparison⟩
  | .less => ⟨none, some .binaryFn, .comparison⟩
  | .lessEqual => ⟨none, some .binaryFn, .comparison⟩
  | .identifier => ⟨some .variableFn, none, .nonePrec⟩
  | .string => ⟨some .stringFn, none, .nonePrec⟩
  | .number => ⟨some .numberFn, none, .nonePrec⟩
  | .andTok => ⟨none, some .andFn, .andPrec⟩
  | .classTok => ⟨none, none, .nonePrec⟩
  | .elseTok => ⟨none, none, .nonePrec⟩
  | .falseTok => ⟨some .literalFn, none, .nonePrec⟩
  | .funTok => ⟨none, none, .nonePrec⟩
  | .forTok => ⟨none, none, .nonePrec⟩
  | .ifTok => ⟨none, none, .nonePrec⟩
  | .nilTok => ⟨some .literalFn, none, .nonePrec⟩
  | .orTok => ⟨none, some .orFn, .andPrec⟩
  | .printTok => ⟨none, none, .nonePrec⟩
  | .returnTok => ⟨none, none, .nonePrec⟩
  | .superTok => ⟨none, none, .nonePrec⟩
  | .thisTok => ⟨none, none, .nonePrec⟩
  | .trueTok => ⟨some .literalFn, none, .nonePrec⟩
  | .varTok => ⟨none, none, .nonePrec⟩
  | .whileTok => ⟨none, none, .nonePrec⟩
  | .eof => ⟨none, none, .nonePrec⟩

/-- The compiler state the expression parser threads (compiler.rs lines
8-18: the writer, the token window and stream, and the variable-resolution
state the reachable parse functions touch). -/
structure CState where
  writer : Chunk
  currentToken : Option Token
  prevToken : Option Token
  rest : List Token
  scopeDepth : Int
  locals : List Local
deriving DecidableEq

/-- `Compiler::advance` (compiler.rs lines 448-464), scan errors aside:
shift the token window by one. -/
def CState.advance (s : CState) : CState :=
  { s with
    prevToken := s.currentToken
    currentToken := s.rest.head?
    rest := s.rest.tail }

/-- `Compiler::matches` (compiler.rs lines 479-494). -/
def CState.matches (s : CState) (t : TokenType) : Bool × CState :=
  match s.currentToken with
  | some tok =>
    if tok.tokenType = t then (Bool.true, s.advance) else (Bool.false, s)
  | none => (Bool.false, s)

/-- `Compiler::consume` (compiler.rs lines 466-477) on the matching path;
a mismatch — which the source records as a parse error before continuing —
is modelled as a hard error, never reached by the well-formed token
streams of the theorems below. -/
def CState.consume (s : CState) (t : TokenType) (msg : String) :
    Except String CState :=
  match s.currentToken with
  | some tok =>
    if tok.tokenType = t then Except.ok s.advance else Except.error msg
  | none => Except.error msg

/-- The calls the fueled parser interpreter dispatches between:
`expression`, `parse_precedence`, its infix loop, and the rule-table
function pointers. -/
inductive ParseCall where
  | expr
  | precedence (p : Precedence)
  | infixLoop (p : Precedence)
  | runPrefixFn (t : PrefixFnTag) (canAssign : Bool)
  | runInfixFn (t : InfixFnTag) (canAssign : Bool)

/-- The expression compiler: `expression` and `parse_precedence`
(compiler.rs lines 187-189, 422-446, 508-530) with the parse functions
reachable from expressions over variables, grouping, unary/binary
operators, literals and and/or (compiler.rs lines 191-273, 306-308,
370-388, 410-420).  Number and string literals would need the float
parser, outside the modelled fragment: their arms error and no theorem
below reaches them.  `fuel` bounds the recursion depth. -/
def parseStep : Nat → ParseCall → CState → Except String CState
  | 0, _, _ => Except.error "out of fuel"
  | Nat.succ fuel, call, s =>
    match call with
    | ParseCall.expr => parseStep fuel (ParseCall.precedence Precedence.assignment) s
    | ParseCall.precedence p =>
      let s1 := s.advance
      match s1.prevToken with
      | none => Except.error "prev token is null"
      | some prevTok =>
        let rule := parseRules prevTok.tokenType
        match rule.prefixFn with
        | none => Except.error "Expected expression"
        | some t =>
          match parseStep fuel (ParseCall.runPrefixFn t (canAssignArg p)) s1 with
          | Except.error e => Except.error e
          | Except.ok s2 =>
            match parseStep fuel (ParseCall.infixLoop p) s2 with
            | Except.error e => Except.error e
            | Except.ok s3 =>
              if canAssignFinal p then
                let m := s3.matches TokenType.equal
                if m.1 then Except.error "Invalid assignment target"
                else Except.ok m.2
              else Except.ok s3
    | ParseCall.infixLoop p =>
      match s.currentToken with
      | none => Except.error "current token is null"
      | some currTok =>
        if p.isGreaterThan (parseRules currTok.tokenType).precedence then
          Except.ok s
        else
          let s1 := s.advance
          match s1.prevToken with
          | none => Except.error "prev token is null"
          | some prevTok =>
            match (parseRules prevTok.tokenType).infixFn with
            | none => Except.error "Expected expression"
            | some t =>
              match parseStep fuel (ParseCall.runInfixFn t (canAssignArg p)) s1 with
              | Except.error e => Except.error e
              | Except.ok s2 => parseStep fuel (ParseCall.infixLoop p) s2
    | ParseCall.runPrefixFn t canAssign =>
      match t with
      | PrefixFnTag.groupingFn =>
        match parseStep fuel ParseCall.expr s with
        | Except.error e => Except.error e
        | Except.ok s1 => s1.consume TokenType.rightParen "Expected ')'"
      | PrefixFnTag.unaryFn =>
        match s.prevToken with
        | none => Except.error "prev token is null"
        | some prevTok =>
          match parseStep fuel (ParseCall.precedence Precedence.unary) s with
          | Except.error e => Except.error e
          | Except.ok s1 =>
            match prevTok.tokenType with
            | TokenType.bang => Except.ok { s1 with writer :=
                (writeOpCode s1.writer OpCode.opNot (Int.ofNat prevTok.line)).1 }
            | TokenType.minus => Except.ok { s1 with writer :=
                (writeOpCode s1.writer OpCode.negate (Int.ofNat prevTok.line)).1 }
            | _ => Except.ok s1
      | PrefixFnTag.variableFn =>
        match s.prevToken with
        | none => Except.error "prev token is null"
        | some prevTok =>
          match resolveLocal s.locals prevTok.lexeme with
          | Except.error e => Except.error e
          | Except.ok r =>
            let gso :=
              match r with
              | some localPos => (OpCode.getLocal, OpCode.setLocal, localPos, s)
              | none =>
                let ac := Chunk.addConstant s.writer (Value.str prevTok.lexeme)
                (OpCode.getGlobal, OpCode.setGlobal, ac.2, { s with writer := ac.1 })
            let m := gso.2.2.2.matches TokenType.equal
            if canAssign && m.1 then
              match parseStep fuel ParseCall.expr m.2 with
              | Except.error e => Except.error e
              | Except.ok s1 => Except.ok { s1 with writer :=
                  (writeOpCodeWithOperand s1.writer gso.2.1 gso.2.2.1
                    (Int.ofNat prevTok.line)).1 }
            else
              Except.ok { gso.2.2.2 with writer :=
                (writeOpCodeWithOperand gso.2.2.2.writer gso.1 gso.2.2.1
                  (Int.ofNat prevTok.line)).1 }
      | PrefixFnTag.literalFn =>
        match s.prevToken with
        | none => Except.error "prev token is null"
        | some prevTok =>
          match prevTok.tokenType with
          | TokenType.nilTok => Except.ok { s with writer :=
              (writeOpCode s.writer OpCode.opNil (Int.ofNat prevTok.line)).1 }
          | TokenType.trueTok => Except.ok { s with writer :=
              (writeOpCode s.writer OpCode.opTrue (Int.ofNat prevTok.line)).1 }
          | TokenType.falseTok => Except.ok { s with writer :=
              (writeOpCode s.writer OpCode.opFalse (Int.ofNat prevTok.line)).1 }
          | _ => Except.ok s
      | PrefixFnTag.numberFn => Except.error "number literal outside the modelled fragment"
      | PrefixFnTag.stringFn => Except.error "string literal outside the modelled fragment"
    | ParseCall.runInfixFn t _ =>
      match t with
      | InfixFnTag.andFn =>
        match s.prevToken with
        | none => Except.error "prev token is null"
        | some prevTok =>
          let line := Int.ofNat prevTok.line
          let w1 := writeJumpIfFalse s.writer line
          let w2 := writeOpCode w1.1 OpCode.pop line
          match parseStep fuel (ParseCall.precedence Precedence.andPrec)
              { s with writer := w2.1 } with
          | Except.error e => Except.error e
          | Except.ok s1 =>
            match patchJumpToChunkEnd s1.writer w1.2 with
            | Except.error e => Except.error e
            | Except.ok c2 => Except.ok { s1 with writer := c2 }
      | InfixFnTag.orFn =>
        match s.prevToken with
        | none => Except.error "prev token is null"
        | some prevTok =>
          let line := Int.ofNat prevTok.line
          let w1 := writeJumpIfFalse s.writer line
          let w2 := writeJump w1.1 line
          match patchJumpToChunkEnd w2.1 w1.2 with
          | Except.error e => Except.error e
          | Except.ok c3 =>
            let w4 := writeOpCode c3 OpCode.pop line
            match parseStep fuel (ParseCall.precedence Precedence.orPrec)
                { s with writer := w4.1 } with
            | Except.error e => Except.error e
            | Except.ok s1 =>
              match patchJumpToChunkEnd s1.writer w2.2 with
              | Except.error e => Except.error e
              | Except.ok c5 => Except.ok { s1 with writer := c5 }
      | InfixFnTag.binaryFn =>
        match s.prevToken with
        | none => Except.error "prev token is null"
        | some prevTok =>
          let line := Int.ofNat prevTok.line
          match parseStep fuel
              (ParseCall.precedence (parseRules prevTok.tokenType).precedence.higher)
              s with
          | Except.error e => Except.error e
          | Except.ok s1 =>
            match prevTok.tokenType with
            | TokenType.plus => Except.ok { s1 with writer :=
                (writeOpCode s1.writer OpCode.add line).1 }
            | TokenType.minus => Except.ok { s1 with writer :=
                (writeOpCode s1.writer OpCode.subtract line).1 }
            | TokenType.star => Except.ok { s1 with writer :=
                (writeOpCode s1.writer OpCode.multiply line).1 }
            | TokenType.slash => Except.ok { s1 with writer :=
                (writeOpCode s1.writer OpCode.divide line).1 }
            | TokenType.bangEqual => Except.ok { s1 with writer :=
                (writeOpCode (writeOpCode s1.writer OpCode.equal line).1
                  OpCode.opNot line).1 }
            | TokenType.equalEqual => Except.ok { s1 with writer :=
                (writeOpCode s1.writer OpCode.equal line).1 }
            | TokenType.greater => Except.ok { s1 with writer :=
                (writeOpCode s1.writer OpCode.greater line).1 }
            | TokenType.greaterEqual => Except.ok { s1 with writer :=
                (writeOpCode (writeOpCode s1.writer OpCode.less line).1
                  OpCode.opNot line).1 }
            | TokenType.less => Except.ok { s1 with writer :=
                (writeOpCode s1.writer OpCode.less line).1 }
            | TokenType.lessEqual => Except.ok { s1 with writer :=
                (writeOpCode (writeOpCode s1.writer OpCode.greater line).1
                  OpCode.opNot line).1 }
            | _ => Except.ok s1

/-- Compiling one expression from a token stream the way `compile` reaches
it: one priming advance (compiler.rs line 29), then `expression`; yields
the chunk. -/
def compileExpression (fuel : Nat) (tokens : List Token) : Except String Chunk :=
  match parseStep fuel ParseCall.expr
      (CState.advance ⟨Chunk.new, none, none, tokens, 0, []⟩) with
  | Except.error e => Except.error e
  | Except.ok s1 => Except.ok s1.writer

/-! Helper lemmas about the wrapping usize arithmetic. -/

theorem USIZE_pos : 0 < USIZE := by
  unfold USIZE
  positivity

theorem wadd_eq_of_lt (a b : Nat) (h : a + b < USIZE) : wadd a b = a + b := by
  unfold wadd
  exact Nat.mod_eq_of_lt h

theorem wsub_lt_USIZE (a b : Nat) : wsub a b < USIZE :=
  Nat.mod_lt _ USIZE_pos

theorem wsub_eq_of_le (a b : Nat) (hb : b ≤ a) (ha : a < USIZE) :
    wsub a b = a - b := by
  unfold wsub
  have hbU : b < USIZE := lt_of_le_of_lt hb ha
  rw [Nat.mod_eq_of_lt hbU]
  have h1 : a + USIZE - b = (a - b) + USIZE := by omega
  rw [h1, Nat.add_mod_right]
  exact Nat.mod_eq_of_lt (by omega)

theorem wsub_eq_of_gt (a b : Nat) (hb : b < USIZE) (h : a < b) :
    wsub a b = a + USIZE - b := by
  unfold wsub
  rw [Nat.mod_eq_of_lt hb]
  exact Nat.mod_eq_of_lt (by omega)

/-- Big-endian recombination of a byte split: the VM's `op1 << 8 | op2`
on the writer's high and low bytes gives the number back. -/
theorem byte_recombine (off : Nat) : ((off / 256) <<< 8) ||| (off % 256) = off := by
  have hmod : off % 256 < 2 ^ 8 := Nat.mod_lt _ (by norm_num)
  have hor := Nat.mul_add_lt_is_or hmod (off / 256)
  rw [Nat.shiftLeft_eq]
  have hcomm : off / 256 * 2 ^ 8 = 2 ^ 8 * (off / 256) := Nat.mul_comm _ _
  rw [hcomm, ← hor]
  have : (2 : Nat) ^ 8 = 256 := by norm_num
  rw [this]
  exact Nat.div_add_mod off 256

theorem high_byte_mod (off : Nat) : (off >>> 8) &&& 255 = off / 256 % 256 := by
  show (off >>> 8) &&& (2 ^ 8 - 1) = off / 2 ^ 8 % 2 ^ 8
  rw [Nat.shiftRight_eq_div_pow, Nat.and_pow_two_sub_one_eq_mod]

theorem high_byte_eq (off : Nat) (h : off ≤ 65535) :
    (off >>> 8) &&& 255 = off / 256 := by
  rw [high_byte_mod]
  have hdiv : off / 256 < 256 := by
    rw [Nat.div_lt_iff_lt_mul (by norm_num)]
    omega
  exact Nat.mod_eq_of_lt hdiv

theorem low_byte_eq (off : Nat) : off &&& 255 = off % 256 := by
  show off &&& (2 ^ 8 - 1) = off % 2 ^ 8
  rw [Nat.and_pow_two_sub_one_eq_mod]

/-! ## C1 — while-loop back-jump operand -/

/-- C1: the `Loop` instruction that `write_loop(loop_start)` emits carries the
big-endian two-byte operand `chunk.len + 3 - loop_start` (chunk.len taken
just before the opcode is written), and the VM's `Loop` dispatch — which
subtracts the recombined operand from the instruction pointer after the
opcode and both operand bytes were read, i.e. from `start + 3` — lands the
instruction pointer exactly on `loop_start`.  The hypotheses state that
`loop_start` does not exceed the current code length, that the back-jump
distance fits the two operand bytes, and that the chunk executed by the VM
extends at least to the end of the Loop instruction. -/
theorem while_loop_operand_roundtrip (c : Chunk) (loopStart : Nat) (line : Int)
    (cRun : Chunk) (hls : loopStart ≤ c.len) (hfit : c.len + 3 - loopStart ≤ 65535)
    (hrun : c.len + 3 ≤ cRun.len) (hsz : cRun.len < USIZE) :
    writeLoop c loopStart line =
      Except.ok (⟨c.code ++ [OpCode.loop.toByte, (c.len + 3 - loopStart) / 256,
          (c.len + 3 - loopStart) % 256], c.lineNumbers ++ [line, line, line],
          c.values⟩, c.len) ∧
    readOperandsAsUsize (some ((c.len + 3 - loopStart) / 256))
        (some ((c.len + 3 - loopStart) % 256)) =
      Except.ok (c.len + 3 - loopStart) ∧
    InstructionReader.decIp ⟨cRun, c.len + 3⟩ (c.len + 3 - loopStart) =
      Except.ok ⟨cRun, loopStart⟩ := by
  have hcU : c.len + 3 < USIZE := lt_of_le_of_lt hrun hsz
  have hoff : wsub c.len (wsub loopStart 3) = c.len + 3 - loopStart := by
    by_cases h3 : 3 ≤ loopStart
    · rw [wsub_eq_of_le loopStart 3 h3 (by omega)]
      rw [wsub_eq_of_le c.len (loopStart - 3) (by omega) (by omega)]
      omega
    · push_neg at h3
      rw [wsub_eq_of_gt loopStart 3 (by unfold USIZE; omega) h3]
      rw [wsub_eq_of_gt c.len (loopStart + USIZE - 3) (by omega) (by omega)]
      omega
  refine ⟨?_, ?_, ?_⟩
  · unfold writeLoop
    rw [hoff]
    rw [if_neg (by unfold usizeMax; omega)]
    unfold writeOpCodeWithOperands Chunk.write
    rw [high_byte_eq _ hfit, low_byte_eq]
    simp [Chunk.len, List.append_assoc]
  · show Except.ok (((c.len + 3 - loopStart) / 256) <<< 8 |||
        ((c.len + 3 - loopStart) % 256)) = Except.ok (c.len + 3 - loopStart)
    rw [byte_recombine]
  · unfold InstructionReader.decIp InstructionReader.setIp
    have hls2 : c.len + 3 - loopStart ≤ c.len + 3 := by omega
    rw [wsub_eq_of_le _ _ hls2 hcU]
    have : c.len + 3 - (c.len + 3 - loopStart) = loopStart := by omega
    rw [this]
    rw [if_neg (by simp only [not_lt]; omega)]

/-- C1 witness: a loop starting at offset 0 of an empty chunk; the operand is
3 and the VM lands back on offset 0. -/
theorem while_loop_operand_roundtrip_witness :
    ((0 : Nat) ≤ (⟨[], [], []⟩ : Chunk).len ∧
     (⟨[], [], []⟩ : Chunk).len + 3 - 0 ≤ 65535 ∧
     (⟨[], [], []⟩ : Chunk).len + 3 ≤ (⟨[0, 0, 0], [1, 1, 1], []⟩ : Chunk).len ∧
     (⟨[0, 0, 0], [1, 1, 1], []⟩ : Chunk).len < USIZE) ∧
    (writeLoop ⟨[], [], []⟩ 0 1 =
       Except.ok (⟨[OpCode.loop.toByte, 0, 3], [1, 1, 1], []⟩, 0) ∧
     readOperandsAsUsize (some 0) (some 3) = Except.ok 3 ∧
     InstructionReader.decIp ⟨⟨[0, 0, 0], [1, 1, 1], []⟩, 3⟩ 3 =
       Except.ok ⟨⟨[0, 0, 0], [1, 1, 1], []⟩, 0⟩) :=
  ⟨⟨by decide, by decide, by decide, by decide⟩,
   while_loop_operand_roundtrip ⟨[], [], []⟩ 0 1 ⟨[0, 0, 0], [1, 1, 1], []⟩
     (by decide) (by decide) (by decide) (by decide)⟩

/-! ## C4 — constant-pool overflow guard -/

set_option maxRecDepth 10000 in
/-- C4: `write_const` can never return its "Too many costants in chunk"
error: `Chunk::add_constant` returns the new index already truncated to
`u8`, so the guard `const_index > u8::MAX` is unsatisfiable.  Appending a
constant to a pool that already has 256 entries therefore succeeds, leaves
a pool of 257 entries (over the documented 256 cap), and emits operand
byte 0, aliasing the pool's first entry. -/
theorem write_const_guard_dead :
    (∀ (c : Chunk) (v : Value) (line : Int), ∃ r, writeConst c v line = Except.ok r) ∧
    (∃ c2, writeConst ⟨[], [], List.replicate 256 (Value.num 7)⟩ (Value.num 9) 1 =
        Except.ok (c2, 0) ∧ c2.values.length = 257 ∧
        c2.code = [OpCode.constant.toByte, 0]) := by
  constructor
  · intro c v line
    unfold writeConst Chunk.addConstant
    have hlt : c.values.length % 256 < 256 := Nat.mod_lt _ (by norm_num)
    rw [if_neg (by omega)]
    exact ⟨_, rfl⟩
  · refine ⟨_, rfl, ?_, rfl⟩
    simp [Chunk.addConstant, Chunk.write]

/-! ## C5 — jump-patch distance guard -/

theorem Chunk.set_cases (c : Chunk) (loc b : Nat) :
    (loc < c.code.length ∧
       Chunk.set c loc b = Except.ok ⟨c.code.set loc b, c.lineNumbers, c.values⟩) ∨
    Chunk.set c loc b = Except.error "Cannot set code byte. Offset is out of range" := by
  unfold Chunk.set
  split
  · exact Or.inl ⟨by assumption, rfl⟩
  · exact Or.inr rfl

theorem patchOperands_ok_or_set_error (c : Chunk) (loc : Nat) (o1 o2 : Option Nat) :
    (∃ c2, patchOperands c loc o1 o2 = Except.ok c2) ∨
    patchOperands c loc o1 o2 =
      Except.error "Cannot set code byte. Offset is out of range" := by
  cases o1 with
  | none =>
    have hred : patchOperands c loc none o2 =
        match o2 with
        | some op2 => Chunk.set c (loc + 2) op2
        | none => Except.ok c := rfl
    rw [hred]
    cases o2 with
    | none => exact Or.inl ⟨c, rfl⟩
    | some op2 =>
      rcases Chunk.set_cases c (loc + 2) op2 with ⟨_, h⟩ | h
      · exact Or.inl ⟨_, h⟩
      · exact Or.inr h
  | some op1 =>
    have hred : patchOperands c loc (some op1) o2 =
        match Chunk.set c (loc + 1) op1 with
        | Except.error e => Except.error e
        | Except.ok c1 =>
          match o2 with
          | some op2 => Chunk.set c1 (loc + 2) op2
          | none => Except.ok c1 := rfl
    rw [hred]
    rcases Chunk.set_cases c (loc + 1) op1 with ⟨_, h1⟩ | h1 <;> rw [h1]
    · cases o2 with
      | none => exact Or.inl ⟨_, rfl⟩
      | some op2 =>
        rcases Chunk.set_cases ⟨c.code.set (loc + 1) op1, c.lineNumbers, c.values⟩
            (loc + 2) op2 with ⟨_, h2⟩ | h2
        · exact Or.inl ⟨_, h2⟩
        · exact Or.inr h2
    · exact Or.inr rfl

theorem patchOperands_both_ok (c : Chunk) (loc b1 b2 : Nat)
    (h1 : loc + 1 < c.code.length) (h2 : loc + 2 < c.code.length) :
    patchOperands c loc (some b1) (some b2) =
      Except.ok ⟨(c.code.set (loc + 1) b1).set (loc + 2) b2,
        c.lineNumbers, c.values⟩ := by
  have e1 : Chunk.set c (loc + 1) b1 =
      Except.ok ⟨c.code.set (loc + 1) b1, c.lineNumbers, c.values⟩ := by
    unfold Chunk.set
    rw [if_pos h1]
  have e2 : Chunk.set ⟨c.code.set (loc + 1) b1, c.lineNumbers, c.values⟩ (loc + 2) b2 =
      Except.ok ⟨(c.code.set (loc + 1) b1).set (loc + 2) b2,
        c.lineNumbers, c.values⟩ := by
    unfold Chunk.set
    rw [if_pos (show loc + 2 < (c.code.set (loc + 1) b1).length by
      rw [List.length_set]
      exact h2)]
  have hred : patchOperands c loc (some b1) (some b2) =
      match Chunk.set c (loc + 1) b1 with
      | Except.error e => Except.error e
      | Except.ok c1 => Chunk.set c1 (loc + 2) b2 := rfl
  rw [hred, e1]
  exact e2

/-- C5: `patch_jump_to_chunk_end` can never return its "Jump too long"
error: its guard compares a `usize` distance against `usize::MAX` and so is
unsatisfiable.  Whenever the jump opcode and its two operand bytes lie
inside the chunk, the patch succeeds and writes the distance reduced modulo
256 per byte — silently truncated when the distance exceeds 65535.  For a
jump opcode at offset 0 of a 65539-byte chunk the distance is 65536 and
both patched bytes are 0. -/
theorem patch_jump_guard_dead :
    (∀ (c : Chunk) (loc : Nat),
       patchJumpToChunkEnd c loc ≠ Except.error "Jump too long") ∧
    (∀ (c : Chunk) (loc : Nat), loc + 3 ≤ c.len → c.len < USIZE →
       patchJumpToChunkEnd c loc = Except.ok
         ⟨(c.code.set (loc + 1) ((c.len - (loc + 3)) / 256 % 256)).set (loc + 2)
            ((c.len - (loc + 3)) % 256), c.lineNumbers, c.values⟩) ∧
    ((65539 : Nat) - (0 + 3) = 65536 ∧ (65535 : Nat) < 65536 ∧
     (65536 : Nat) / 256 % 256 = 0 ∧ (65536 : Nat) % 256 = 0) := by
  refine ⟨?_, ?_, by norm_num⟩
  · intro c loc
    unfold patchJumpToChunkEnd
    rw [if_neg (by
      have := wsub_lt_USIZE c.len (wadd loc 3)
      unfold usizeMax
      omega)]
    intro h
    rcases patchOperands_ok_or_set_error c loc
        (some (wsub c.len (wadd loc 3) >>> 8 &&& 255))
        (some (wsub c.len (wadd loc 3) &&& 255)) with ⟨c2, hok⟩ | herr
    · rw [hok] at h
      injection h
    · rw [herr] at h
      injection h with h
      exact absurd h (by decide)
  · intro c loc hloc hU
    unfold patchJumpToChunkEnd
    rw [wadd_eq_of_lt loc 3 (by omega)]
    rw [wsub_eq_of_le c.len (loc + 3) hloc hU]
    rw [if_neg (by unfold usizeMax; omega)]
    rw [high_byte_mod, low_byte_eq]
    have hcode : c.len = c.code.length := rfl
    exact patchOperands_both_ok c loc _ _ (by omega) (by omega)

/-! ## C9 — instruction-pointer range guards -/

/-- C9 counterexample: `dec_ip(usize::MAX)` at ip 0 on a one-byte chunk asks
for the mathematically negative instruction pointer 0 - (2^64 - 1), which
lies outside [0, code.len]; instead of the range error the claim demands,
the wrapping subtraction lands on 1 and the call silently succeeds. -/
theorem dec_ip_wraparound_counterexample :
    InstructionReader.decIp ⟨⟨[0], [1], []⟩, 0⟩ (USIZE - 1) =
      Except.ok ⟨⟨[0], [1], []⟩, 1⟩ ∧
    (⟨⟨[0], [1], []⟩, 0⟩ : InstructionReader).ip < USIZE - 1 := by
  constructor
  · rfl
  · decide

/-- C9 (amended): `set_ip(n)` errors exactly when `n > code.len` and
otherwise sets the instruction pointer to n; `inc_ip(d)` and `dec_ip(d)`
compute `ip + d` and `ip - d` in wrapping usize arithmetic and hand the
result to `set_ip`, so in the absence of wraparound they error exactly when
the requested pointer lies outside [0, code.len] and otherwise set it; a
wrapping argument (see the counterexample) is checked as its wrapped value. -/
theorem ip_range_guards :
    (∀ (c : Chunk) (ip n : Nat), n ≤ c.len →
       InstructionReader.setIp ⟨c, ip⟩ n = Except.ok ⟨c, n⟩) ∧
    (∀ (c : Chunk) (ip n : Nat), c.len < n →
       InstructionReader.setIp ⟨c, ip⟩ n =
         Except.error "Attempt to set ip beyond chunk") ∧
    (∀ (c : Chunk) (ip inc : Nat), ip + inc < USIZE → ip + inc ≤ c.len →
       InstructionReader.incIp ⟨c, ip⟩ inc = Except.ok ⟨c, ip + inc⟩) ∧
    (∀ (c : Chunk) (ip inc : Nat), ip + inc < USIZE → c.len < ip + inc →
       InstructionReader.incIp ⟨c, ip⟩ inc =
         Except.error "Attempt to set ip beyond chunk") ∧
    (∀ (c : Chunk) (ip dec : Nat), c.len < USIZE → ip ≤ c.len → dec ≤ ip →
       InstructionReader.decIp ⟨c, ip⟩ dec = Except.ok ⟨c, ip - dec⟩) ∧
    (∀ (c : Chunk) (ip dec : Nat), c.len < USIZE → ip ≤ c.len → ip < dec →
       dec + c.len < USIZE + ip →
       InstructionReader.decIp ⟨c, ip⟩ dec =
         Except.error "Attempt to set ip beyond chunk") := by
  refine ⟨?_, ?_, ?_, ?_, ?_, ?_⟩
  · intro c ip n h
    unfold InstructionReader.setIp
    dsimp only
    rw [if_neg (by omega)]
  · intro c ip n h
    unfold InstructionReader.setIp
    dsimp only
    rw [if_pos (by omega)]
  · intro c ip inc hU h
    unfold InstructionReader.incIp InstructionReader.setIp
    dsimp only
    rw [wadd_eq_of_lt _ _ hU]
    rw [if_neg (by omega)]
  · intro c ip inc hU h
    unfold InstructionReader.incIp InstructionReader.setIp
    dsimp only
    rw [wadd_eq_of_lt _ _ hU]
    rw [if_pos (by omega)]
  · intro c ip dec hc hip h
    unfold InstructionReader.decIp InstructionReader.setIp
    dsimp only
    rw [wsub_eq_of_le _ _ h (by omega)]
    rw [if_neg (by omega)]
  · intro c ip dec hc hip h hw
    unfold InstructionReader.decIp InstructionReader.setIp
    dsimp only
    rw [wsub_eq_of_gt _ _ (by omega) h]
    rw [if_pos (by omega)]

/-- C9 witness: the guards evaluated on a five-byte chunk — an in-range
increment and decrement succeed, an out-of-range decrement and set error. -/
theorem ip_range_guards_witness :
    InstructionReader.incIp ⟨⟨[0, 0, 0, 0, 0], [1, 1, 1, 1, 1], []⟩, 2⟩ 2 =
      Except.ok ⟨⟨[0, 0, 0, 0, 0], [1, 1, 1, 1, 1], []⟩, 4⟩ ∧
    InstructionReader.decIp ⟨⟨[0, 0, 0, 0, 0], [1, 1, 1, 1, 1], []⟩, 2⟩ 2 =
      Except.ok ⟨⟨[0, 0, 0, 0, 0], [1, 1, 1, 1, 1], []⟩, 0⟩ ∧
    InstructionReader.decIp ⟨⟨[0, 0, 0, 0, 0], [1, 1, 1, 1, 1], []⟩, 2⟩ 3 =
      Except.error "Attempt to set ip beyond chunk" ∧
    InstructionReader.setIp ⟨⟨[0, 0, 0, 0, 0], [1, 1, 1, 1, 1], []⟩, 0⟩ 9 =
      Except.error "Attempt to set ip beyond chunk" :=
  ⟨ip_range_guards.2.2.1 ⟨[0, 0, 0, 0, 0], [1, 1, 1, 1, 1], []⟩ 2 2
     (by decide) (by decide),
   ip_range_guards.2.2.2.2.1 ⟨[0, 0, 0, 0, 0], [1, 1, 1, 1, 1], []⟩ 2 2
     (by decide) (by decide) (by decide),
   ip_range_guards.2.2.2.2.2 ⟨[0, 0, 0, 0, 0], [1, 1, 1, 1, 1], []⟩ 2 3
     (by decide) (by decide) (by decide) (by decide),
   ip_range_guards.2.1 ⟨[0, 0, 0, 0, 0], [1, 1, 1, 1, 1], []⟩ 0 9 (by decide)⟩

/-! Helper lemmas about the stack operations. -/

theorem Stack.pop_concat {α : Type} (s : List α) (x : α) :
    Stack.pop (s ++ [x]) = Except.ok (x, s) := by
  unfold Stack.pop
  rw [if_neg (by simp)]
  rw [List.getLast?_concat, List.dropLast_concat]

theorem Stack.pop_ok {α : Type} (s : List α) (v : α) (s1 : List α)
    (h : Stack.pop s = Except.ok (v, s1)) :
    s1 = s.dropLast ∧ s.getLast? = some v ∧ 1 ≤ s.length := by
  unfold Stack.pop at h
  by_cases he : s.isEmpty
  · rw [if_pos he] at h
    exact absurd h (by simp)
  · rw [if_neg he] at h
    cases hg : s.getLast? with
    | none => rw [hg] at h; exact absurd h (by simp)
    | some w =>
      rw [hg] at h
      have hw : Except.ok (ε := String) (w, s.dropLast) = Except.ok (v, s1) := h
      injection hw with hw
      injection hw with hw1 hw2
      subst hw1
      subst hw2
      refine ⟨rfl, rfl, ?_⟩
      cases s with
      | nil => simp at he
      | cons a t => simp

theorem Stack.peek_zero_ok {α : Type} (s : List α) (v : α)
    (h : Stack.peek s 0 = Except.ok v) :
    1 ≤ s.length ∧ s.get? (s.length - 1) = some v := by
  unfold Stack.peek at h
  by_cases hgt : 0 + 1 > s.length
  · rw [if_pos hgt] at h
    exact absurd h (by simp)
  · rw [if_neg hgt] at h
    cases hg : s.get? (s.length - (0 + 1)) with
    | none => rw [hg] at h; exact absurd h (by simp)
    | some w =>
      rw [hg] at h
      have hw : Except.ok (ε := String) w = Except.ok v := h
      injection hw with hw
      subst hw
      exact ⟨by omega, by simpa using hg⟩

theorem Stack.setFront_ok {α : Type} (s : List α) (pos : Nat) (v : α)
    (s2 : List α) (h : Stack.setFront s pos v = Except.ok s2) :
    pos < s.length ∧ s2 = s.set pos v := by
  unfold Stack.setFront at h
  by_cases hp : pos ≥ s.length
  · rw [if_pos hp] at h
    exact absurd h (by simp)
  · rw [if_neg hp] at h
    have hw : Except.ok (ε := String) (s.set pos v) = Except.ok s2 := h
    injection hw with hw
    exact ⟨by omega, hw.symm⟩

/-! ## C6 — cross-type Greater/Less -/

/-- C6 counterexample: executing `Greater` on operands of different tags —
a = Number 1 below b = Boolean true — does not abort the run with a type
error; it succeeds and pushes the Boolean that the derived Value ordering
yields (false here, because the Number variant precedes the Boolean
variant). -/
theorem greater_cross_type_counterexample :
    execGreater [Value.num 1, Value.boolean Bool.true] =
      Except.ok [Value.boolean Bool.false] ∧
    (Value.num 1).tagIdx ≠ (Value.boolean Bool.true).tagIdx := by
  constructor
  · rfl
  · decide

/-- C6 (amended): `Greater`/`Less` never type-check their operands: on any
stack holding a below b on top, they pop both and push the Boolean that the
derived Value ordering gives (cross-variant operands compare by variant
order String < Number < Nil < Boolean), succeeding for every combination
of tags. -/
theorem greater_less_push_boolean (st : List Value) (a b : Value) :
    execGreater (st ++ [a, b]) = Except.ok (st ++ [Value.boolean (Value.gtv a b)]) ∧
    execLess (st ++ [a, b]) = Except.ok (st ++ [Value.boolean (Value.ltv a b)]) := by
  constructor
  · unfold execGreater Vm.binaryOp
    rw [show st ++ [a, b] = (st ++ [a]) ++ [b] by simp, Stack.pop_concat]
    dsimp only
    rw [Stack.pop_concat]
    rfl
  · unfold execLess Vm.binaryOp
    rw [show st ++ [a, b] = (st ++ [a]) ++ [b] by simp, Stack.pop_concat]
    dsimp only
    rw [Stack.pop_concat]
    rfl

/-- C6 witness: the amended rule evaluated on the counterexample's operands,
and on two Numbers (where the ordering is numeric). -/
theorem greater_less_push_boolean_witness :
    execGreater [Value.num 1, Value.boolean Bool.true] =
      Except.ok [Value.boolean (Value.gtv (Value.num 1) (Value.boolean Bool.true))] ∧
    execLess [Value.num 1, Value.num 2] =
      Except.ok [Value.boolean (Value.ltv (Value.num 1) (Value.num 2))] :=
  ⟨(greater_less_push_boolean [] (Value.num 1) (Value.boolean Bool.true)).1,
   (greater_less_push_boolean [] (Value.num 1) (Value.num 2)).2⟩

/-! ## C8 — stack effects of SetLocal, SetGlobal, DefineGlobal -/

/-- C8: a successful SetLocal leaves the stack height unchanged, keeps the
assigned value on top (the value is peeked, not popped) and disturbs no
slot other than the one it writes; a successful SetGlobal leaves the whole
stack unchanged; a successful DefineGlobal pops exactly the defined
value, shrinking the stack by one. -/
theorem set_define_stack_effects :
    (∀ (st : List Value) (slot : Nat) (st2 : List Value),
       execSetLocal st (some slot) = Except.ok st2 →
       st2.length = st.length ∧ st2.getLast? = st.getLast? ∧
       ∀ i, i ≠ slot → st2.get? i = st.get? i) ∧
    (∀ (c : Chunk) (g : Globals) (st : List Value) (o : Option Nat)
       (st2 : List Value) (g2 : Globals),
       execSetGlobal c g st o = Except.ok (st2, g2) → st2 = st) ∧
    (∀ (c : Chunk) (g : Globals) (st : List Value) (o : Option Nat)
       (st2 : List Value) (g2 : Globals),
       execDefineGlobal c g st o = Except.ok (st2, g2) →
       st2.length + 1 = st.length ∧ st2 = st.dropLast) := by
  refine ⟨?_, ?_, ?_⟩
  · intro st slot st2 h
    unfold execSetLocal getOperand1 at h
    dsimp only at h
    cases hp : Stack.peek st 0 with
    | error e => rw [hp] at h; exact absurd h (by simp)
    | ok val =>
      rw [hp] at h
      have hset : Stack.setFront st slot val = Except.ok st2 := h
      obtain ⟨hslot, hst2⟩ := Stack.setFront_ok st slot val st2 hset
      obtain ⟨hlen, hget⟩ := Stack.peek_zero_ok st val hp
      subst hst2
      refine ⟨List.length_set st slot val, ?_, ?_⟩
      · rw [List.getLast?_eq_get?, List.getLast?_eq_get?, List.length_set]
        by_cases hs : slot = st.length - 1
        · subst hs
          rw [List.get?_set_eq, hget]
          rfl
        · exact List.get?_set_ne val st hs
      · intro i hi
        exact List.get?_set_ne val st (fun hh => hi hh.symm)
  · intro c g st o st2 g2 h
    unfold execSetGlobal at h
    cases hn : getGlobalName c o with
    | error e => rw [hn] at h; exact absurd h (by simp)
    | ok globalName =>
      rw [hn] at h
      dsimp only at h
      by_cases hc : Globals.containsKey g globalName
      · rw [if_pos hc] at h
        cases hp : Stack.peek st 0 with
        | error e => rw [hp] at h; exact absurd h (by simp)
        | ok newValue =>
          rw [hp] at h
          have hw : Except.ok (ε := String) (st, Globals.insert g globalName newValue) =
              Except.ok (st2, g2) := h
          injection hw with hw
          injection hw with hw1 hw2
          exact hw1.symm
      · rw [if_neg hc] at h
        exact absurd h (by simp)
  · intro c g st o st2 g2 h
    unfold execDefineGlobal at h
    cases hn : getGlobalName c o with
    | error e => rw [hn] at h; exact absurd h (by simp)
    | ok globalName =>
      rw [hn] at h
      dsimp only at h
      cases hp : Stack.peek st 0 with
      | error e => rw [hp] at h; exact absurd h (by simp)
      | ok val =>
        rw [hp] at h
        cases hpop : Stack.pop st with
        | error e => rw [hpop] at h; exact absurd h (by simp)
        | ok p =>
          obtain ⟨v2, st1⟩ := p
          rw [hpop] at h
          have hw : Except.ok (ε := String)
              (st1, Globals.insert g globalName val) = Except.ok (st2, g2) := h
          injection hw with hw
          injection hw with hw1 hw2
          obtain ⟨hdrop, hlast, hlen⟩ := Stack.pop_ok st v2 st1 hpop
          subst hw1
          constructor
          · rw [hdrop, List.length_dropLast]
            omega
          · rw [hdrop]

/-- C8 witness: the three instructions evaluated on concrete states —
SetLocal keeps the height and top, SetGlobal keeps the stack, DefineGlobal
pops the defined value. -/
theorem set_define_stack_effects_witness :
    execSetLocal [Value.num 1, Value.num 2] (some 0) =
      Except.ok [Value.num 2, Value.num 2] ∧
    execSetGlobal ⟨[], [], [Value.str "x"]⟩ [("x", Value.num 0)] [Value.num 5]
        (some 0) =
      Except.ok ([Value.num 5], [("x", Value.num 5)]) ∧
    execDefineGlobal ⟨[], [], [Value.str "x"]⟩ [] [Value.num 5] (some 0) =
      Except.ok ([], [("x", Value.num 5)]) := by
  refine ⟨by decide, by decide, by decide⟩

/-! ## C2 — local variable resolution order -/

theorem resolveLocalAux_ok_some (name : String) :
    ∀ (locals : List Local) (k i : Nat),
      resolveLocalAux locals name k = Except.ok (some i) →
      k ≤ i ∧ ∃ l, locals.get? (i - k) = some l ∧ l.name = name ∧
        l.initialized = Bool.true ∧
        ∀ j, j < i - k → ∀ m, locals.get? j = some m → m.name ≠ name := by
  intro locals
  induction locals with
  | nil =>
    intro k i h
    exact absurd h (by simp [resolveLocalAux])
  | cons l rest ih =>
    intro k i h
    simp only [resolveLocalAux] at h
    by_cases hn : l.name = name
    · rw [if_pos hn] at h
      by_cases hini : l.initialized = false
      · rw [if_pos hini] at h
        exact absurd h (by simp)
      · rw [if_neg hini] at h
        have hw : Except.ok (ε := String) (some k) = Except.ok (some i) := h
        injection hw with hw
        injection hw with hw
        subst hw
        refine ⟨le_refl k, l, by simp, hn, ?_, ?_⟩
        · revert hini
          cases l.initialized <;> simp
        · intro j hj
          exact absurd hj (by omega)
    · rw [if_neg hn] at h
      obtain ⟨hk, l2, hget, hname, hini, hprev⟩ := ih (k + 1) i h
      refine ⟨by omega, l2, ?_, hname, hini, ?_⟩
      · have hik : i - k = (i - (k + 1)) + 1 := by omega
        rw [hik]
        simpa using hget
      · intro j hj m hm hname2
        cases j with
        | zero =>
          have hml : l = m := by simpa using hm
          rw [← hml] at hname2
          exact hn hname2
        | succ j2 =>
          have hj2 : j2 < i - (k + 1) := by omega
          exact hprev j2 hj2 m (by simpa using hm) hname2

theorem resolveLocalAux_ok_none (name : String) :
    ∀ (locals : List Local) (k : Nat),
      resolveLocalAux locals name k = Except.ok none →
      ∀ l, l ∈ locals → l.name ≠ name := by
  intro locals
  induction locals with
  | nil =>
    intro k h l hl
    exact absurd hl (by simp)
  | cons l rest ih =>
    intro k h m hm
    simp only [resolveLocalAux] at h
    by_cases hn : l.name = name
    · rw [if_pos hn] at h
      by_cases hini : l.initialized = false
      · rw [if_pos hini] at h
        exact absurd h (by simp)
      · rw [if_neg hini] at h
        exact absurd h (by simp)
    · rw [if_neg hn] at h
      rcases List.mem_cons.mp hm with hml | hmr
      · rw [hml]
        exact hn
      · exact ih (k + 1) h m hmr

theorem resolveLocalAux_error (name : String) :
    ∀ (locals : List Local) (k : Nat) (e : String),
      resolveLocalAux locals name k = Except.error e →
      ∃ i l, locals.get? i = some l ∧ l.name = name ∧
        l.initialized = Bool.false ∧
        ∀ j, j < i → ∀ m, locals.get? j = some m → m.name ≠ name := by
  intro locals
  induction locals with
  | nil =>
    intro k e h
    exact absurd h (by simp [resolveLocalAux])
  | cons l rest ih =>
    intro k e h
    simp only [resolveLocalAux] at h
    by_cases hn : l.name = name
    · rw [if_pos hn] at h
      by_cases hini : l.initialized = false
      · refine ⟨0, l, by simp, hn, ?_, ?_⟩
        · revert hini
          cases l.initialized <;> simp
        · intro j hj
          exact absurd hj (by omega)
      · rw [if_neg hini] at h
        exact absurd h (by simp)
    · rw [if_neg hn] at h
      obtain ⟨i, l2, hget, hname, hini, hprev⟩ := ih (k + 1) e h
      refine ⟨i + 1, l2, by simpa using hget, hname, hini, ?_⟩
      intro j hj m hm hname2
      cases j with
      | zero =>
        have hml : l = m := by simpa using hm
        rw [← hml] at hname2
        exact hn hname2
      | succ j2 =>
        exact hprev j2 (by omega) m (by simpa using hm) hname2

/-- C2 counterexample: with two in-scope locals both named "a" — the outer
at slot 0, the inner (most recently declared) at slot 1, both initialized —
resolve_local("a") returns slot 0, the OUTERMOST declaration, not slot 1 as
the claim states. -/
theorem resolve_local_counterexample :
    resolveLocal [⟨"a", 1, Bool.true⟩, ⟨"a", 2, Bool.true⟩] "a" =
      Except.ok (some 0) ∧
    resolveLocal [⟨"a", 1, Bool.true⟩, ⟨"a", 2, Bool.true⟩] "a" ≠
      Except.ok (some 1) := by
  constructor
  · rfl
  · decide

/-- C2 (amended): resolve_local walks the locals from the BOTTOM up (index
0 first), so the earliest declared (outermost) matching local wins: a
returned slot i names an initialized local called `name` and no smaller
slot matches; Ok(None) means no local matches; an error means the earliest
matching local is not yet initialized. -/
theorem resolve_local_earliest_match :
    (∀ (locals : List Local) (name : String) (i : Nat),
       resolveLocal locals name = Except.ok (some i) →
       (∃ l, locals.get? i = some l ∧ l.name = name ∧
          l.initialized = Bool.true) ∧
       (∀ j, j < i → ∀ m, locals.get? j = some m → m.name ≠ name)) ∧
    (∀ (locals : List Local) (name : String),
       resolveLocal locals name = Except.ok none →
       ∀ l, l ∈ locals → l.name ≠ name) ∧
    (∀ (locals : List Local) (name : String) (e : String),
       resolveLocal locals name = Except.error e →
       ∃ i l, locals.get? i = some l ∧ l.name = name ∧
         l.initialized = Bool.false ∧
         ∀ j, j < i → ∀ m, locals.get? j = some m → m.name ≠ name) := by
  refine ⟨?_, ?_, ?_⟩
  · intro locals name i h
    obtain ⟨hk, l, hget, hname, hini, hprev⟩ :=
      resolveLocalAux_ok_some name locals 0 i h
    refine ⟨⟨l, by simpa using hget, hname, hini⟩, ?_⟩
    intro j hj m hm
    exact hprev j (by omega) m hm
  · intro locals name h
    exact resolveLocalAux_ok_none name locals 0 h
  · intro locals name e h
    exact resolveLocalAux_error name locals 0 e h

/-- C2 witness: the amended characterization evaluated on concrete locals —
a clean lookup, a miss, and the uninitialized-local error of spec
scenario 8 (`var a = a;`). -/
theorem resolve_local_earliest_match_witness :
    resolveLocal [⟨"a", 1, Bool.true⟩, ⟨"b", 2, Bool.true⟩] "b" =
      Except.ok (some 1) ∧
    resolveLocal [⟨"a", 1, Bool.true⟩] "c" = Except.ok none ∧
    resolveLocal [⟨"a", 1, Bool.false⟩] "a" =
      Except.error "Use of uninitialized local variable a" := by
  refine ⟨by decide, by decide, ?_⟩
  rfl

/-! ## C3 — scope close pops locals -/

theorem popDeadLocals_spec (newDepth : Int) (line : Int) :
    ∀ (rl : List Local) (c : Chunk),
      popDeadLocals rl newDepth c line =
        (rl.takeWhile (fun l => decide (newDepth ≤ l.depth)),
         rl.dropWhile (fun l => decide (newDepth ≤ l.depth)),
         ⟨c.code ++ List.replicate
            (rl.takeWhile (fun l => decide (newDepth ≤ l.depth))).length
            OpCode.pop.toByte,
          c.lineNumbers ++ List.replicate
            (rl.takeWhile (fun l => decide (newDepth ≤ l.depth))).length line,
          c.values⟩) := by
  intro rl
  induction rl with
  | nil =>
    intro c
    obtain ⟨code, lineNumbers, values⟩ := c
    simp [popDeadLocals]
  | cons l rest ih =>
    intro c
    by_cases hd : l.depth < newDepth
    · have hp : (fun l2 => decide (newDepth ≤ l2.depth)) l = Bool.false := by
        simp
        omega
      rw [List.takeWhile_cons_of_neg (by simpa using hp),
        List.dropWhile_cons_of_neg (by simpa using hp)]
      obtain ⟨code, lineNumbers, values⟩ := c
      simp [popDeadLocals, hd]
    · have hp : (fun l2 => decide (newDepth ≤ l2.depth)) l = Bool.true := by
        simp
        omega
      rw [List.takeWhile_cons_of_pos (by simpa using hp),
        List.dropWhile_cons_of_pos (by simpa using hp)]
      simp only [popDeadLocals, if_neg hd]
      rw [ih]
      simp [Chunk.write, List.replicate_succ]

/-- C3 (amended): end_scope first decrements the scope depth, then pops —
in LIFO order, one Pop instruction per local — exactly the maximal top
segment of locals whose depth is GREATER THAN OR EQUAL to the new depth:
locals whose depth equals the new current depth are popped too (the loop
only stops strictly below), contrary to the claim's "strictly greater". -/
theorem end_scope_pops_depth_ge (depth : Int) (locals : List Local) (c : Chunk)
    (line : Int) :
    endScope depth locals c line =
      (depth - 1,
       locals.reverse.takeWhile (fun l => decide (depth - 1 ≤ l.depth)),
       (locals.reverse.dropWhile (fun l => decide (depth - 1 ≤ l.depth))).reverse,
       ⟨c.code ++ List.replicate
          (locals.reverse.takeWhile (fun l => decide (depth - 1 ≤ l.depth))).length
          OpCode.pop.toByte,
        c.lineNumbers ++ List.replicate
          (locals.reverse.takeWhile (fun l => decide (depth - 1 ≤ l.depth))).length
          line,
        c.values⟩) := by
  unfold endScope
  by_cases hl : locals.length > 0
  · rw [if_pos hl]
    rw [popDeadLocals_spec]
  · rw [if_neg hl]
    have hnil : locals = [] := by
      cases locals with
      | nil => rfl
      | cons a t => simp at hl
    subst hnil
    obtain ⟨code, lineNumbers, values⟩ := c
    simp

/-- C3 counterexample: closing a scope at depth 2 with locals a (depth 1,
belonging to the still-open outer scope) and b (depth 2): the code pops
BOTH — two Pop opcodes, locals left empty — whereas the claim says only b
(depth 2 > new depth 1) is popped and a remains. -/
theorem end_scope_counterexample :
    endScope 2 [⟨"a", 1, Bool.true⟩, ⟨"b", 2, Bool.true⟩] Chunk.new 7 =
      (1, [⟨"b", 2, Bool.true⟩, ⟨"a", 1, Bool.true⟩], [],
       ⟨[OpCode.pop.toByte, OpCode.pop.toByte], [7, 7], []⟩) ∧
    (endScope 2 [⟨"a", 1, Bool.true⟩, ⟨"b", 2, Bool.true⟩] Chunk.new 7).2.2.1 ≠
      [⟨"a", 1, Bool.true⟩] := by
  constructor
  · rfl
  · decide

/-! ## C7 — the "Invalid assignment target" check -/

/-- C7: the final check of parse_precedence uses a STRICTLY-less predicate
(`Assignment.is_greater_than(p)`), not the `p ≤ Assignment` predicate
handed to the prefix and infix functions: at p = Assignment — the
precedence every expression is parsed at — the prefix/infix can_assign is
true, yet the final check's can_assign is false, so a trailing `=` raises
no "Invalid assignment target" error there; the check can only fire for
p = None, which no caller passes. -/
theorem invalid_assignment_check_dead :
    canAssignArg Precedence.assignment = Bool.true ∧
    finalAssignCheck Precedence.assignment Bool.true = Bool.false ∧
    (∀ p : Precedence,
       finalAssignCheck p Bool.true = Bool.true ↔ p = Precedence.nonePrec) := by
  refine ⟨rfl, rfl, ?_⟩
  intro p
  cases p <;> decide

/-! ## C10 — `or` registered at the same precedence as `and` -/

/-- C10: the rule table registers the infix rule of `or` at precedence And,
the same level as `and` (not one below), so the infix loop running at level
And does not break on an incoming `or` (And.is_greater_than(And) is false)
and consumes it inside the right operand of `and`: the bytecode compiled
for `a and b or c` equals that of `a and (b or c)` and differs from that of
`(a and b) or c`. -/
theorem or_same_precedence_as_and :
    (parseRules TokenType.orTok).precedence = Precedence.andPrec ∧
    (parseRules TokenType.andTok).precedence = Precedence.andPrec ∧
    Precedence.andPrec.isGreaterThan (parseRules TokenType.orTok).precedence =
      Bool.false ∧
    compileExpression 32
        [⟨TokenType.identifier, "a", 1⟩, ⟨TokenType.andTok, "and", 1⟩,
         ⟨TokenType.identifier, "b", 1⟩, ⟨TokenType.orTok, "or", 1⟩,
         ⟨TokenType.identifier, "c", 1⟩, ⟨TokenType.eof, "", 1⟩] =
      compileExpression 32
        [⟨TokenType.identifier, "a", 1⟩, ⟨TokenType.andTok, "and", 1⟩,
         ⟨TokenType.leftParen, "(", 1⟩, ⟨TokenType.identifier, "b", 1⟩,
         ⟨TokenType.orTok, "or", 1⟩, ⟨TokenType.identifier, "c", 1⟩,
         ⟨TokenType.rightParen, ")", 1⟩, ⟨TokenType.eof, "", 1⟩] ∧
    compileExpression 32
        [⟨TokenType.identifier, "a", 1⟩, ⟨TokenType.andTok, "and", 1⟩,
         ⟨TokenType.identifier, "b", 1⟩, ⟨TokenType.orTok, "or", 1⟩,
         ⟨TokenType.identifier, "c", 1⟩, ⟨TokenType.eof, "", 1⟩] ≠
      compileExpression 32
        [⟨TokenType.leftParen, "(", 1⟩, ⟨TokenType.identifier, "a", 1⟩,
         ⟨TokenType.andTok, "and", 1⟩, ⟨TokenType.identifier, "b", 1⟩,
         ⟨TokenType.rightParen, ")", 1⟩, ⟨TokenType.orTok, "or", 1⟩,
         ⟨TokenType.identifier, "c", 1⟩, ⟨TokenType.eof, "", 1⟩] := by
  refine ⟨rfl, rfl, rfl, by decide, by decide⟩

end Lox
